import Mathlib

/-!
Shallow embedding of the DNS resolution and wildcard-suppression service of
`amass/dns.go`.  Network I/O (the external `recon` resolver library) is
modelled by an explicit oracle, randomness by explicit parameters standing
for the values drawn from `math/rand`, and the `processRequests` event loop
by a step function over an explicit state.  Go panics (index out of range,
modulo by zero) are modelled by `Option` with `none` for the panic.
-/

/-- Closed set of enumeration provenance tags.  Modelled from the spec: the
tag constants (SEARCH, DNS, ...) are declared elsewhere in the repository,
outside the given source file. -/
inductive AmassTag where
  | SEARCH
  | DNS
  | BRUTE
  | ALT
  | ARCHIVE
  | CERT
  | SCRAPE
  deriving DecidableEq

/-- A DNS answer as exposed by the external recon library: name, record type,
data and TTL.  The Go field `Type` is rendered `Rtype` because `Type` is a
reserved word. -/
structure DNSAnswer where
  Name : String
  Rtype : String
  Data : String
  TTL : Nat
  deriving DecidableEq

/-- The request record flowing through the pipeline (`AmassRequest`).  The
struct is declared elsewhere in the repository; its fields are those the spec
gives in the data model. -/
structure AmassRequest where
  Name : String
  Domain : String
  Address : String
  Tag : AmassTag
  Source : String
  deriving DecidableEq

/-- The external `recon.ResolveDNS(name, server, rrtype)` call, modelled as an
oracle: `none` is an error, `some answers` a success. -/
abbrev Resolve : Type := String → String → String → Option (List DNSAnswer)

/-- Go `strings.HasSuffix(s, suffix)`: a raw string-suffix test. -/
def hasSuffix (s suffix : String) : Bool :=
  decide (suffix.data.length ≤ s.data.length) &&
  decide (s.data.drop (s.data.length - suffix.data.length) = suffix.data)

/-- Whether a string begins with a URL-encoded forward slash `%2F`
(case-insensitive on the letter). -/
def starts252F (s : String) : Bool :=
  match s.data with
  | '%' :: c2 :: c3 :: _ => c2 == '2' && (c3 == 'f' || c3 == 'F')
  | _ => false

/-- Modelled from the spec: `trim252F` is defined elsewhere in the repository;
per the spec it strips a leading URL-encoded forward slash (`%2F`,
case-insensitive) from the name. -/
def trim252F (s : String) : String :=
  if starts252F s then String.mk (s.data.drop 3) else s

/-- The hard-coded list of public recursive resolvers (`knownPublicServers`);
the three commented-out entries of the source are omitted here as they are
in the source. -/
def knownPublicServers : List String :=
  ["8.8.8.8:53",
   "64.6.64.6:53",
   "9.9.9.9:53",
   "84.200.69.80:53",
   "8.26.56.26:53",
   "208.67.222.222:53",
   "195.46.39.39:53",
   "69.195.152.204:53",
   "216.146.35.35:53",
   "37.235.1.174:53",
   "198.101.242.72:53",
   "77.88.8.8:53",
   "91.239.100.100:53",
   "74.82.42.42:53",
   "156.154.70.1:53",
   "8.8.4.4:53",
   "149.112.112.112:53",
   "84.200.70.40:53",
   "8.20.247.20:53",
   "208.67.220.220:53",
   "195.46.39.40:53",
   "216.146.36.36:53",
   "77.88.8.1:53",
   "89.233.43.71:53",
   "156.154.71.1:53"]

/-- `testPublicServers`: probe every known server with one A query for
`google.com`, keeping exactly the responders. -/
def testPublicServers (R : Resolve) : List String :=
  knownPublicServers.filter (fun server => (R "google.com" server "A").isSome)

/-- The `init()` of the source: the usable-server pool is just the probe
survivors.  There is no emptiness check and no failure path. -/
def initUsableServers (R : Resolve) : List String :=
  testPublicServers R

/-- `NextNameserver`: random selection of a resolver, where `num` stands for
the `rand.Int()` draw.  `none` models the Go panic on an empty pool
(modulo by zero). -/
def NextNameserver (servers : List String) (num : Nat) : Option String :=
  servers[num % servers.length]?

/-- Modelled from the spec: initialisation as claim C9 states it, failing
(`none`, the `NoUsableResolvers` error) when no probed address survives. -/
def specInitialise (R : Resolve) : Option (List String) :=
  let working := testPublicServers R
  if working.isEmpty then none else some working

def maxNameLen : Nat := 253

def maxLabelLen : Nat := 63

def ldhChars : String := "abcdefghijklmnopqrstuvwxyz0123456789-"

/-- The label-building loop of `unlikelyName`: `ldh` is the alphabet after the
`rand.Shuffle` (any permutation of `ldhChars`), `sels i` the draw of the
`i`-th `rand.Int()` call.  A hyphen drawn at loop index `0` or `l-1` is
skipped (the source uses `continue`), not resampled. -/
def buildLabel (ldh : List Char) (sels : Nat → Nat) (l : Nat) : List Char :=
  (List.range l).foldl
    (fun acc i =>
      let c := ldh.getD (sels i % ldh.length) 'a'
      if (i = 0 ∨ i = l - 1) ∧ c = '-' then acc else acc ++ [c])
    []

/-- Assembling the synthetic name from label and suffix: the tail of
`unlikelyName` (empty label aborts, otherwise `label ++ "." ++ sub`). -/
def mkSynthName (label : List Char) (sub : String) : String :=
  if label.isEmpty then "" else String.mk label ++ "." ++ sub

/-- `unlikelyName(sub)`: the target label length is `maxLabelLen / 2 = 31`
when `253 - len(sub) > 63`, else `253 - len(sub)`, aborting when that is
below 1. -/
def unlikelyName (ldh : List Char) (sels : Nat → Nat) (sub : String) : String :=
  let L : Int := (maxNameLen : Int) - (sub.data.length : Int)
  if L > (maxLabelLen : Int) then mkSynthName (buildLabel ldh sels (maxLabelLen / 2)) sub
  else if L < 1 then ""
  else mkSynthName (buildLabel ldh sels L.toNat) sub

/-- `recursiveCNAME`, with fuel for the 10-hop bound.  The second component
counts resolver queries issued.  `none` in the first component models the Go
panic on `a[0]` when a successful CNAME response carries no answers. -/
def recursiveCNAMEAux (R : Resolve) (server : String) :
    Nat → String → List DNSAnswer → Option (List DNSAnswer × String) × Nat
  | 0, name, acc => (some (acc, name), 0)
  | n+1, name, acc =>
    match R name server "CNAME" with
    | none => (some (acc, name), 1)
    | some [] => (none, 1)
    | some (a0 :: _) =>
      let r := recursiveCNAMEAux R server n a0.Data (acc ++ [a0])
      (r.1, r.2 + 1)

/-- Entry point of the CNAME chase: 10 hops maximum, starting from `name`. -/
def recursiveCNAME (R : Resolve) (name server : String) :
    Option (List DNSAnswer × String) × Nat :=
  recursiveCNAMEAux R server 10 name []

def noRecordsMsg : String := "No A or AAAA records resolved for the name"

/-- `dnsQuery(domain, name, server)`: CNAME chain, then A and AAAA for the
final name; the error is raised iff neither terminal query succeeded.  The
second component counts underlying resolver queries. -/
def dnsQuery (R : Resolve) (domain name server : String) :
    Option (Except String (List DNSAnswer)) × Nat :=
  match recursiveCNAME R name server with
  | (none, c) => (none, c)
  | (some (answers, fname), c) =>
    let ra := R fname server "A"
    let rq := R fname server "AAAA"
    let acc := (answers ++ ra.getD []) ++ rq.getD []
    (some (if ra.isSome || rq.isSome then Except.ok acc else Except.error noRecordsMsg),
     c + 2)

/-- Modelled from the spec: `recon.GetARecordData` (external library) returns
the address data of the first A record among the answers, or `""` when there
is none. -/
def getARecordData (answers : List DNSAnswer) : String :=
  match answers.find? (fun a => a.Rtype == "A") with
  | some a => a.Data
  | none => ""

/-- `stringset.StringSet` built from answers, modelled as the list of `Data`
fields with membership-based operations. -/
def answersToStringSet (answers : List DNSAnswer) : List String :=
  answers.map (fun a => a.Data)

/-- `StringSet.Equal`: equality as sets (mutual containment). -/
def ssEqual (a b : List String) : Bool :=
  a.all (fun x => b.contains x) && b.all (fun x => a.contains x)

/-- The random draws consumed by one `unlikelyName` call: the shuffled
alphabet and the per-character selections. -/
structure LabelRand where
  ldh : List Char
  sels : Nat → Nat

/-- `checkForWildcard`: one synthetic probe.  Outer `none` models a panic
inside `dnsQuery`; `some none` is a failed probe (nil `StringSet`). -/
def checkForWildcard (R : Resolve) (g : LabelRand) (sub root server : String) :
    Option (Option (List String)) :=
  let name := unlikelyName g.ldh g.sels sub
  if name = "" then some none
  else
    match (dnsQuery R root name server).1 with
    | none => none
    | some (Except.ok ans) => some (some (answersToStringSet ans))
    | some (Except.error _) => some none

/-- The probe sequence of `wildcardDetection` after the resolver was chosen:
three probes through the same `server`, aborting Negative on the first
failure; Positive iff all three sets are equal and the first is non-empty. -/
def wildcardDetectionBody (R : Resolve) (g1 g2 g3 : LabelRand)
    (sub root server : String) : Option (Option (List String)) :=
  match checkForWildcard R g1 sub root server with
  | none => none
  | some none => some none
  | some (some ss1) =>
    match checkForWildcard R g2 sub root server with
    | none => none
    | some none => some none
    | some (some ss2) =>
      match checkForWildcard R g3 sub root server with
      | none => none
      | some none => some none
      | some (some ss3) =>
        if !ss1.isEmpty && (ssEqual ss1 ss2 && ssEqual ss2 ss3)
        then some (some ss1) else some none

/-- `wildcardDetection(sub, root)`: draw one resolver via `NextNameserver` (the
draw is `num`) and run all three probes through it. -/
def wildcardDetection (R : Resolve) (servers : List String) (num : Nat)
    (g1 g2 g3 : LabelRand) (sub root : String) : Option (Option (List String)) :=
  match NextNameserver servers num with
  | none => none
  | some server => wildcardDetectionBody R g1 g2 g3 sub root server

/-- A wildcard cache entry (`dnsWildcard`): the `Answers` pointer is `none`
exactly when the source stores `nil`. -/
structure DnsWildcard where
  HasWildcard : Bool
  Answers : Option (List String)
  deriving DecidableEq

/-- The wildcard cache.  The source keys the Go map by the dot-joined suffix
string; since the labels of one name contain no dots, keying by the label
list itself is equivalent and is used here. -/
abbrev WMap : Type := List (List String × DnsWildcard)

/-- Lookup in the wildcard cache. -/
def wlookup : WMap → List String → Option DnsWildcard
  | [], _ => none
  | (k, v) :: rest, key => if k = key then some v else wlookup rest key

/-- The entry built on a cache miss: `HasWildcard` and `Answers` are set iff
`wildcardDetection` returned a non-nil set. -/
def mkEntry (det : Option (List String)) : DnsWildcard :=
  match det with
  | none => { HasWildcard := false, Answers := none }
  | some ss => { HasWildcard := true, Answers := some ss }

/-- The per-suffix test of `matchesWildcard`:
`w.HasWildcard && w.Answers.Contains(ip)`. -/
def wCheck (w : DnsWildcard) (ip : String) : Bool :=
  w.HasWildcard && (w.Answers.getD []).contains ip

/-- Go `strings.Split(s, ".")` on the character list. -/
def splitCh : List Char → List (List Char)
  | [] => [[]]
  | c :: rest =>
    if c = '.' then [] :: splitCh rest
    else
      match splitCh rest with
      | [] => [[c]]
      | h :: t => (c :: h) :: t

/-- Go `strings.Split(s, ".")`. -/
def splitOnDot (s : String) : List String :=
  (splitCh s.data).map String.mk

/-- Go `strings.Join(l, ".")`. -/
def joinDot : List String → String
  | [] => ""
  | [x] => x
  | x :: xs => x ++ "." ++ joinDot xs

/-- The countdown loop of `matchesWildcard`: `k` plays the role of the Go
index `i`, walking `i = len(labels)-base, ..., 1` with suffix
`labels[i:]`.  `det sub` stands for the (non-panicking) outcome of
`wildcardDetection(sub, root)`: `none` for a nil set, `some ss` for a
wildcard with answers `ss`. -/
def mwAux (det : String → Option (List String)) (ip : String) (labels : List String) :
    Nat → WMap → Bool → Bool × WMap
  | 0, cache, ans => (ans, cache)
  | k+1, cache, ans =>
    let key := labels.drop (k+1)
    match wlookup cache key with
    | some w => mwAux det ip labels k cache (ans || wCheck w ip)
    | none =>
      let e := mkEntry (det (joinDot key))
      mwAux det ip labels k ((key, e) :: cache) (ans || wCheck e ip)

/-- `matchesWildcard(name, root, ip, wildcards)`: walk every label suffix from
`i = len(labels) - base` down to `i = 1`, filling the cache on demand. -/
def matchesWildcard (det : String → Option (List String)) (name root ip : String)
    (cache : WMap) : Bool × WMap :=
  let base := (splitOnDot root).length
  let labels := splitOnDot name
  mwAux det ip labels (labels.length - base) cache false

/-- The entry a walk step observes for suffix index `j`: the cached entry when
present, otherwise the entry freshly built from the detector. -/
def effEntry (det : String → Option (List String)) (cache : WMap)
    (labels : List String) (j : Nat) : DnsWildcard :=
  match wlookup cache (labels.drop j) with
  | some w => w
  | none => mkEntry (det (joinDot (labels.drop j)))

/-- Modelled from the spec: the wildcard-match relation exactly as claim C2
states it — only suffixes strictly between the name and the apex, excluding
the apex itself (strictly more labels than the apex), are consulted. -/
def wildcardMatchClaimC2 (det : String → Option (List String))
    (name root ip : String) (cache : WMap) : Prop :=
  ∃ j, 1 ≤ j ∧ j < (splitOnDot name).length - (splitOnDot root).length ∧
    wCheck (effEntry det cache (splitOnDot name) j) ip = true

/-- The per-record emission of `performDNSRequest`: every answer whose name
has the apex as a raw suffix is forwarded, with the original tag and source
iff the record name equals the request name; `sendOut` applies `trim252F` to
the name. -/
def emitRecords (answers : List DNSAnswer) (req : AmassRequest) (ipstr : String) :
    List AmassRequest :=
  answers.filterMap (fun record =>
    if hasSuffix record.Name req.Domain then
      some { Name := trim252F record.Name
             Domain := req.Domain
             Address := ipstr
             Tag := if record.Name = req.Name then req.Tag else AmassTag.DNS
             Source := if record.Name = req.Name then req.Source else "DNS" }
    else none)

/-- `performDNSRequest`: resolve, extract the first A address, consult the
wildcard worker, gate on the SEARCH tag, and emit the surviving records.
`server` stands for the `NextNameserver()` draw; the result pairs the emitted
requests with the wildcard cache after the call; `none` models a panic inside
`dnsQuery`. -/
def performDNSRequest (R : Resolve) (server : String)
    (det : String → Option (List String)) (cache : WMap) (req : AmassRequest) :
    Option (List AmassRequest × WMap) :=
  match (dnsQuery R req.Domain req.Name server).1 with
  | none => none
  | some (Except.error _) => some ([], cache)
  | some (Except.ok answers) =>
    let ipstr := getARecordData answers
    if ipstr = "" then some ([], cache)
    else
      let req1 : AmassRequest := { req with Address := ipstr }
      let m := matchesWildcard det req1.Name req1.Domain req1.Address cache
      if req1.Tag ≠ AmassTag.SEARCH ∧ m.1 = true then some ([], m.2)
      else some (emitRecords answers req1 ipstr, m.2)

/-- The events the `processRequests` select loop reacts to. -/
inductive DEvent where
  | add (r : AmassRequest)
  | tick
  | check
  | quit
  deriving DecidableEq

/-- The loop state of `processRequests`: the FIFO queue, the dedup filter, the
requests handed to `performDNSRequest` so far, the activity flag, and whether
the quit signal was received. -/
structure DState where
  queue : List AmassRequest
  filter : List String
  dispatched : List AmassRequest
  active : Bool
  stopped : Bool
  deriving DecidableEq

/-- One reaction of the `processRequests` select loop. -/
def dstep (s : DState) (e : DEvent) : DState :=
  if s.stopped then s else
  match e with
  | DEvent.add r =>
    let r1 : AmassRequest := { r with Name := trim252F r.Name }
    if r1.Name ≠ "" ∧ r1.Name ∉ s.filter then
      { s with queue := s.queue ++ [r1], filter := r1.Name :: s.filter, active := true }
    else s
  | DEvent.tick =>
    match s.queue with
    | [] => s
    | next :: rest =>
      { s with queue := rest,
               dispatched := if next.Domain ≠ "" then s.dispatched ++ [next] else s.dispatched }
  | DEvent.check => if s.queue.isEmpty then { s with active := false } else s
  | DEvent.quit => { s with stopped := true }

/-- Run the loop from the initial state over a sequence of events. -/
def drun (evs : List DEvent) : DState :=
  evs.foldl dstep { queue := [], filter := [], dispatched := [], active := false, stopped := false }

/-- The requests the loop admits into the queue from a burst of inputs,
given the names already seen: first occurrence of each non-empty post-trim
name. -/
def acceptedReqs : List AmassRequest → List String → List AmassRequest
  | [], _ => []
  | r :: rs, seen =>
    let r1 : AmassRequest := { r with Name := trim252F r.Name }
    if r1.Name ≠ "" ∧ r1.Name ∉ seen then r1 :: acceptedReqs rs (r1.Name :: seen)
    else acceptedReqs rs seen

/-- Modelled from the spec: the dispatch count exactly as claim C5 states it —
the number of distinct non-empty post-normalisation names having some input
whose non-empty domain is a suffix of the name. -/
def claimC5Count (adds : List AmassRequest) : Nat :=
  ((adds.filterMap (fun r =>
      let n := trim252F r.Name
      if n ≠ "" ∧ r.Domain ≠ "" ∧ hasSuffix n r.Domain = true then some n else none)).dedup).length

/-- Random draws exhibiting the hyphen bug: the first two `rand.Int()` calls
pick index 36 (the hyphen), the rest pick index 0. -/
def selsH : Nat → Nat := fun i => if i < 2 then 36 else 0

/-- Random draws that always pick index 0 (the letter `a`). -/
def selsA : Nat → Nat := fun _ => 0

/-- A 200-character suffix, long enough that the target label length falls in
the `else` branch of `unlikelyName`. -/
def subLong : String := String.mk (List.replicate 200 'b')

/-- A detector marking exactly the apex `wild.com` as a wildcard answering
`10.0.0.1`. -/
def detC2 : String → Option (List String) :=
  fun s => if s = "wild.com" then some ["10.0.0.1"] else none

/-- A detector finding no wildcard anywhere. -/
def detNone : String → Option (List String) := fun _ => none

/-- An oracle resolving only the A record of `foo.wild.com`. -/
def Rc1 : Resolve := fun n _ t =>
  if t == "A" && n == "foo.wild.com"
  then some [{ Name := "foo.wild.com", Rtype := "A", Data := "10.0.0.1", TTL := 60 }]
  else none

/-- A SEARCH-tagged request for `foo.wild.com` under apex `wild.com`. -/
def reqC1 : AmassRequest :=
  { Name := "foo.wild.com", Domain := "wild.com", Address := "", Tag := AmassTag.SEARCH,
    Source := "yahoo" }

/-- The answers `dnsQuery` returns for `reqC1` against `Rc1`. -/
def ansC1 : List DNSAnswer :=
  [{ Name := "foo.wild.com", Rtype := "A", Data := "10.0.0.1", TTL := 60 }]

/-- An oracle resolving only the A record of `badexample.com`: its name shares
the apex `example.com` only as a raw suffix. -/
def Rc4 : Resolve := fun n _ t =>
  if t == "A" && n == "badexample.com"
  then some [{ Name := "badexample.com", Rtype := "A", Data := "93.184.216.34", TTL := 300 }]
  else none

/-- A request whose name has the apex as a raw suffix but not as a
dot-separated one. -/
def reqC4 : AmassRequest :=
  { Name := "badexample.com", Domain := "example.com", Address := "", Tag := AmassTag.BRUTE,
    Source := "brute" }

/-- Modelled from the spec: the name shape claim C4 asserts for emitted
requests — the name ends in a dot followed by the domain, or equals it. -/
def dotSuffixOk (n d : String) : Bool :=
  hasSuffix n ("." ++ d) || n == d

/-- An oracle resolving only the A record of `www.example.com`. -/
def Rc4w : Resolve := fun n _ t =>
  if t == "A" && n == "www.example.com"
  then some [{ Name := "www.example.com", Rtype := "A", Data := "93.184.216.34", TTL := 300 }]
  else none

/-- A well-formed request for `www.example.com` under apex `example.com`. -/
def reqC4w : AmassRequest :=
  { Name := "www.example.com", Domain := "example.com", Address := "", Tag := AmassTag.BRUTE,
    Source := "brute" }

/-- The output `performDNSRequest` produces for `reqC4w` against `Rc4w`. -/
def outC4w : List AmassRequest × WMap :=
  ([{ Name := "www.example.com", Domain := "example.com", Address := "93.184.216.34",
      Tag := AmassTag.BRUTE, Source := "brute" }],
   [(["example", "com"], { HasWildcard := false, Answers := none })])

/-- Two inputs with the same name: the first carries an empty domain, the
second a non-empty one whose domain is a genuine suffix of the name. -/
def cexAdds : List AmassRequest :=
  [{ Name := "a.x.com", Domain := "", Address := "", Tag := AmassTag.BRUTE, Source := "s1" },
   { Name := "a.x.com", Domain := "x.com", Address := "", Tag := AmassTag.BRUTE, Source := "s2" }]

/-- The two inputs followed by two dispatch ticks. -/
def cexEvents : List DEvent := cexAdds.map DEvent.add ++ [DEvent.tick, DEvent.tick]

/-- An oracle on which every probe fails. -/
def Rfail : Resolve := fun _ _ _ => none

/-- An oracle whose every CNAME response succeeds with an empty answer list. -/
def RcnEmpty : Resolve := fun _ _ t => if t == "CNAME" then some [] else none

/-- An oracle on which every query errors out. -/
def RcnNone : Resolve := fun _ _ _ => none

/-- An oracle resolving only the A record of `final.ex.com`. -/
def Rc6 : Resolve := fun n _ t =>
  if t == "A" && n == "final.ex.com"
  then some [{ Name := "final.ex.com", Rtype := "A", Data := "1.2.3.4", TTL := 60 }]
  else none

/-- An oracle answering every A query with the queried name and a fixed
address, as a wildcard-configured zone would. -/
def Rc3 : Resolve := fun n _ t =>
  if t == "A" then some [{ Name := n, Rtype := "A", Data := "10.0.0.1", TTL := 60 }]
  else none

/-- Probe randomness for the C3 witness: identity shuffle, always index 0. -/
def gC3 : LabelRand := { ldh := ldhChars.data, sels := fun _ => 0 }

/-- A cache already holding an entry for the apex `wild.com`. -/
def cacheC3 : WMap :=
  [(["wild", "com"], { HasWildcard := true, Answers := some ["9.9.9.9"] })]

theorem recursiveCNAMEAux_count_le (R : Resolve) (server : String) :
    ∀ (fuel : Nat) (name : String) (acc : List DNSAnswer),
      (recursiveCNAMEAux R server fuel name acc).2 ≤ fuel := by
  intro fuel
  induction fuel with
  | zero => intro name acc; simp [recursiveCNAMEAux]
  | succ n ih =>
    intro name acc
    simp only [recursiveCNAMEAux]
    split
    · simp
    · simp
    · rename_i a0 rest _
      have := ih a0.Data (acc ++ [a0])
      simp only []
      omega

theorem recursiveCNAMEAux_len_le (R : Resolve) (server : String) :
    ∀ (fuel : Nat) (name : String) (acc : List DNSAnswer),
      (((recursiveCNAMEAux R server fuel name acc).1.map (fun p => p.1.length)).getD 0)
        ≤ acc.length + fuel := by
  intro fuel
  induction fuel with
  | zero => intro name acc; simp [recursiveCNAMEAux]
  | succ n ih =>
    intro name acc
    simp only [recursiveCNAMEAux]
    split
    · simp
    · simp
    · rename_i a0 rest _
      have := ih a0.Data (acc ++ [a0])
      simp only [List.length_append, List.length_cons, List.length_nil] at this
      simp only []
      omega

theorem recursiveCNAMEAux_isSome (R : Resolve) (server : String)
    (h : ∀ m, R m server "CNAME" ≠ some []) :
    ∀ (fuel : Nat) (name : String) (acc : List DNSAnswer),
      ((recursiveCNAMEAux R server fuel name acc).1).isSome = true := by
  intro fuel
  induction fuel with
  | zero => intro name acc; simp [recursiveCNAMEAux]
  | succ n ih =>
    intro name acc
    simp only [recursiveCNAMEAux]
    split
    · simp
    · rename_i heq
      exact absurd heq (h name)
    · rename_i a0 rest _
      exact ih a0.Data (acc ++ [a0])

theorem recursiveCNAMEAux_empty (R : Resolve) (server name : String)
    (acc : List DNSAnswer) (n : Nat) (h : R name server "CNAME" = some []) :
    (recursiveCNAMEAux R server (n+1) name acc).1 = none := by
  simp [recursiveCNAMEAux, h]

/-- C6: `dnsQuery` fails (with the no-records error) iff neither the terminal
A query nor the terminal AAAA query for the post-CNAME name succeeded;
otherwise it returns the CNAME-chain answers followed by whichever of the A
and AAAA answers arrived, per-record-type transport errors being swallowed. -/
theorem dnsQuery_error_characterisation (R : Resolve) (domain name server : String)
    (cans : List DNSAnswer) (fname : String) (c : Nat)
    (hc : recursiveCNAME R name server = (some (cans, fname), c)) :
    ((dnsQuery R domain name server).1 = some (Except.error noRecordsMsg) ↔
      R fname server "A" = none ∧ R fname server "AAAA" = none) ∧
    (∀ a, R fname server "A" = some a →
      (dnsQuery R domain name server).1 =
        some (Except.ok ((cans ++ a) ++ (R fname server "AAAA").getD []))) ∧
    (∀ q, R fname server "AAAA" = some q →
      (dnsQuery R domain name server).1 =
        some (Except.ok ((cans ++ (R fname server "A").getD []) ++ q))) := by
  unfold dnsQuery
  rw [hc]
  cases hA : R fname server "A" <;> cases hQ : R fname server "AAAA" <;>
    simp [hA, hQ]

theorem dnsQuery_error_characterisation_witness :
    (dnsQuery Rc6 "ex.com" "final.ex.com" "8.8.8.8:53").1 =
      some (Except.ok
        (([] ++ [{ Name := "final.ex.com", Rtype := "A", Data := "1.2.3.4", TTL := 60 }]) ++
          (Rc6 "final.ex.com" "8.8.8.8:53" "AAAA").getD [])) :=
  (dnsQuery_error_characterisation Rc6 "ex.com" "final.ex.com" "8.8.8.8:53" []
      "final.ex.com" 1 rfl).2.1
    [{ Name := "final.ex.com", Rtype := "A", Data := "1.2.3.4", TTL := 60 }] rfl

/-- C7: the CNAME chain is followed for at most 10 hops (at most 10 CNAME
queries and at most 10 recorded alias answers, stopping at the first failure),
so one logical lookup issues at most 12 underlying resolver queries. -/
theorem dnsQuery_query_bound (R : Resolve) (domain name server : String) :
    (recursiveCNAME R name server).2 ≤ 10 ∧
    (((recursiveCNAME R name server).1.map (fun p => p.1.length)).getD 0) ≤ 10 ∧
    (dnsQuery R domain name server).2 ≤ 12 := by
  refine ⟨recursiveCNAMEAux_count_le R server 10 name [], ?_, ?_⟩
  · have h := recursiveCNAMEAux_len_le R server 10 name []
    simpa [recursiveCNAME] using h
  · have hcount : (recursiveCNAME R name server).2 ≤ 10 :=
      recursiveCNAMEAux_count_le R server 10 name []
    unfold dnsQuery
    rcases h : recursiveCNAME R name server with ⟨r, c⟩
    rw [h] at hcount
    cases r with
    | none =>
      show c ≤ 12
      omega
    | some p =>
      rcases p with ⟨answers, fname⟩
      show c + 2 ≤ 12
      omega

/-- C10: `recursiveCNAME` blindly reads `a[0]` on each successful hop; a
successful CNAME response with an empty answer list makes it panic (modelled
by `none`), and it is index-safe whenever every successful CNAME resolution
returns at least one answer. -/
theorem recursiveCNAME_index_safety (R : Resolve) (name server : String) :
    (R name server "CNAME" = some [] → (recursiveCNAME R name server).1 = none) ∧
    ((∀ m, R m server "CNAME" ≠ some []) →
      ((recursiveCNAME R name server).1).isSome = true) := by
  constructor
  · intro h
    exact recursiveCNAMEAux_empty R server name [] 9 h
  · intro h
    exact recursiveCNAMEAux_isSome R server h 10 name []

theorem recursiveCNAME_index_safety_witness :
    (recursiveCNAME RcnEmpty "a.example.com" "8.8.8.8:53").1 = none ∧
    ((recursiveCNAME RcnNone "a.example.com" "8.8.8.8:53").1).isSome = true :=
  ⟨(recursiveCNAME_index_safety RcnEmpty "a.example.com" "8.8.8.8:53").1 rfl,
   (recursiveCNAME_index_safety RcnNone "a.example.com" "8.8.8.8:53").2
     (fun m => by simp [RcnNone])⟩

theorem wlookup_cons_ne (k1 key : List String) (v : DnsWildcard) (m : WMap)
    (h : k1 ≠ key) : wlookup ((k1, v) :: m) key = wlookup m key := by
  simp [wlookup, h]

theorem drop_ne_of_lt (labels : List String) (j k : Nat) (hj : j < k)
    (hk : k ≤ labels.length) : labels.drop k ≠ labels.drop j := by
  intro h
  have hl := congrArg List.length h
  simp only [List.length_drop] at hl
  omega

theorem effEntry_cons_ne (det : String → Option (List String)) (cache : WMap)
    (labels : List String) (j : Nat) (key : List String) (v : DnsWildcard)
    (h : key ≠ labels.drop j) :
    effEntry det ((key, v) :: cache) labels j = effEntry det cache labels j := by
  simp [effEntry, wlookup_cons_ne _ _ _ _ h]

theorem mwAux_preserves (det : String → Option (List String)) (ip : String)
    (labels : List String) :
    ∀ (k : Nat) (cache : WMap) (ans : Bool) (key : List String) (e : DnsWildcard),
      wlookup cache key = some e →
      wlookup (mwAux det ip labels k cache ans).2 key = some e := by
  intro k
  induction k with
  | zero => intro cache ans key e h; simpa [mwAux] using h
  | succ n ih =>
    intro cache ans key e h
    simp only [mwAux]
    split
    · rename_i w hl
      exact ih cache _ key e h
    · rename_i hl
      have hne : labels.drop (n+1) ≠ key := by
        intro hkey
        rw [hkey, h] at hl
        exact Option.noConfusion hl
      refine ih _ _ key e ?_
      rw [wlookup_cons_ne _ _ _ _ hne]
      exact h

theorem mwAux_fills (det : String → Option (List String)) (ip : String)
    (labels : List String) :
    ∀ (k : Nat), k ≤ labels.length →
      ∀ (cache : WMap) (ans : Bool) (j : Nat), 1 ≤ j → j ≤ k →
        wlookup (mwAux det ip labels k cache ans).2 (labels.drop j) =
          some (effEntry det cache labels j) := by
  intro k
  induction k with
  | zero => intro _ cache ans j h1 h2; omega
  | succ n ih =>
    intro hk cache ans j h1 h2
    simp only [mwAux]
    split
    · rename_i w hl
      by_cases hj : j = n+1
      · subst hj
        have heff : effEntry det cache labels (n+1) = w := by simp [effEntry, hl]
        rw [heff]
        exact mwAux_preserves det ip labels n cache _ _ w hl
      · exact ih (by omega) cache _ j h1 (by omega)
    · rename_i hl
      by_cases hj : j = n+1
      · subst hj
        have heff : effEntry det cache labels (n+1) =
            mkEntry (det (joinDot (labels.drop (n+1)))) := by
          simp [effEntry, hl]
        rw [heff]
        refine mwAux_preserves det ip labels n _ _ _ _ ?_
        simp [wlookup]
      · have hne : labels.drop (n+1) ≠ labels.drop j :=
          drop_ne_of_lt labels j (n+1) (by omega) hk
        have heff := effEntry_cons_ne det cache labels j (labels.drop (n+1))
          (mkEntry (det (joinDot (labels.drop (n+1))))) hne
        rw [← heff]
        exact ih (by omega) _ _ j h1 (by omega)

theorem mwAux_result (det : String → Option (List String)) (ip : String)
    (labels : List String) :
    ∀ (k : Nat), k ≤ labels.length →
      ∀ (cache : WMap) (ans : Bool),
        ((mwAux det ip labels k cache ans).1 = true ↔
          ans = true ∨
            ∃ j, 1 ≤ j ∧ j ≤ k ∧ wCheck (effEntry det cache labels j) ip = true) := by
  intro k
  induction k with
  | zero =>
    intro _ cache ans
    simp only [mwAux]
    constructor
    · exact Or.inl
    · rintro (h | ⟨j, h1, h2, _⟩)
      · exact h
      · omega
  | succ n ih =>
    intro hk cache ans
    simp only [mwAux]
    split
    · rename_i w hl
      rw [ih (by omega) cache (ans || wCheck w ip)]
      have heff : effEntry det cache labels (n+1) = w := by simp [effEntry, hl]
      constructor
      · rintro (h | ⟨j, h1, h2, h3⟩)
        · rcases (Bool.or_eq_true _ _).mp h with h | h
          · exact Or.inl h
          · exact Or.inr ⟨n+1, by omega, le_refl _, by rw [heff]; exact h⟩
        · exact Or.inr ⟨j, h1, by omega, h3⟩
      · rintro (h | ⟨j, h1, h2, h3⟩)
        · exact Or.inl (by simp [h])
        · by_cases hj : j = n+1
          · subst hj
            rw [heff] at h3
            exact Or.inl (by simp [h3])
          · exact Or.inr ⟨j, h1, by omega, h3⟩
    · rename_i hl
      rw [ih (by omega) _ (ans || wCheck (mkEntry (det (joinDot (labels.drop (n+1))))) ip)]
      have heff : effEntry det cache labels (n+1) =
          mkEntry (det (joinDot (labels.drop (n+1)))) := by
        simp [effEntry, hl]
      constructor
      · rintro (h | ⟨j, h1, h2, h3⟩)
        · rcases (Bool.or_eq_true _ _).mp h with h | h
          · exact Or.inl h
          · exact Or.inr ⟨n+1, by omega, le_refl _, by rw [heff]; exact h⟩
        · have hne : labels.drop (n+1) ≠ labels.drop j :=
            drop_ne_of_lt labels j (n+1) (by omega) hk
          rw [effEntry_cons_ne det cache labels j _ _ hne] at h3
          exact Or.inr ⟨j, h1, by omega, h3⟩
      · rintro (h | ⟨j, h1, h2, h3⟩)
        · exact Or.inl (by simp [h])
        · by_cases hj : j = n+1
          · subst hj
            rw [heff] at h3
            exact Or.inl (by simp [h3])
          · have hne : labels.drop (n+1) ≠ labels.drop j :=
              drop_ne_of_lt labels j (n+1) (by omega) hk
            refine Or.inr ⟨j, h1, by omega, ?_⟩
            rw [effEntry_cons_ne det cache labels j _ _ hne]
            exact h3

/-- C2 (amended): the wildcard decision for `(name, address)` under `root` is
true iff some label suffix from the immediate parent of `name` down to and
INCLUDING the apex itself (every suffix with at least as many labels as the
apex that is shorter than `name`) has a Positive entry — cached, or freshly
filled from detection — whose answer set contains the address.  The source
walks `i = len(labels)-base, ..., 1`, so the apex is consulted, contrary to
the claim's "excluding the apex". -/
theorem matchesWildcard_suffix_walk (det : String → Option (List String))
    (name root ip : String) (cache : WMap) :
    (matchesWildcard det name root ip cache).1 = true ↔
      ∃ j, 1 ≤ j ∧ j ≤ (splitOnDot name).length - (splitOnDot root).length ∧
        wCheck (effEntry det cache (splitOnDot name) j) ip = true := by
  have h := mwAux_result det ip (splitOnDot name)
    ((splitOnDot name).length - (splitOnDot root).length) (Nat.sub_le _ _) cache false
  simpa [matchesWildcard] using h

/-- Counterexample to C2 as stated: for `foo.wild.com` under apex `wild.com`
there is no suffix strictly between the name and the apex, so the claim's
relation is empty; yet the source returns a match because its walk reaches
the apex `wild.com` itself, whose entry is Positive with the address. -/
theorem matchesWildcard_apex_cex :
    (matchesWildcard detC2 "foo.wild.com" "wild.com" "10.0.0.1" []).1 = true ∧
    ¬ wildcardMatchClaimC2 detC2 "foo.wild.com" "wild.com" "10.0.0.1" [] := by
  constructor
  · decide
  · intro h
    unfold wildcardMatchClaimC2 at h
    obtain ⟨j, h1, h2, _⟩ := h
    have he : (splitOnDot "foo.wild.com").length - (splitOnDot "wild.com").length = 1 := by
      decide
    rw [he] at h2
    omega

theorem wildcardDetectionBody_pos_iff (R : Resolve) (g1 g2 g3 : LabelRand)
    (sub root server : String) (S : List String) :
    wildcardDetectionBody R g1 g2 g3 sub root server = some (some S) ↔
      ∃ s1 s2 s3,
        checkForWildcard R g1 sub root server = some (some s1) ∧
        checkForWildcard R g2 sub root server = some (some s2) ∧
        checkForWildcard R g3 sub root server = some (some s3) ∧
        s1.isEmpty = false ∧ ssEqual s1 s2 = true ∧ ssEqual s2 s3 = true ∧ S = s1 := by
  unfold wildcardDetectionBody
  cases h1 : checkForWildcard R g1 sub root server with
  | none => simp
  | some o1 =>
    cases o1 with
    | none => simp
    | some ss1 =>
      cases h2 : checkForWildcard R g2 sub root server with
      | none => simp
      | some o2 =>
        cases o2 with
        | none => simp
        | some ss2 =>
          cases h3 : checkForWildcard R g3 sub root server with
          | none => simp
          | some o3 =>
            cases o3 with
            | none => simp
            | some ss3 =>
              dsimp only
              by_cases hc : (!ss1.isEmpty && (ssEqual ss1 ss2 && ssEqual ss2 ss3)) = true
              · rw [if_pos hc]
                rcases Bool.and_eq_true .. |>.mp hc with ⟨hc1, hc23⟩
                rcases Bool.and_eq_true .. |>.mp hc23 with ⟨hc2, hc3⟩
                simp only [Option.some_inj]
                constructor
                · intro hS
                  exact ⟨ss1, ss2, ss3, rfl, rfl, rfl,
                    by simpa using hc1, hc2, hc3, hS.symm⟩
                · rintro ⟨s1, s2, s3, e1, e2, e3, _, _, _, hS⟩
                  cases e1
                  exact hS.symm
              · rw [if_neg hc]
                simp only [Option.some_inj]
                constructor
                · intro hfalse
                  exact absurd hfalse (by simp)
                · rintro ⟨s1, s2, s3, e1, e2, e3, hd1, hd2, hd3, hS⟩
                  cases e1
                  cases e2
                  cases e3
                  exact absurd (by simp [hd1, hd2, hd3] :
                    (!ss1.isEmpty && (ssEqual ss1 ss2 && ssEqual ss2 ss3)) = true) hc

/-- C3: detection for a suffix draws one resolver and sends all three probes
through that same server; the result is Positive (a non-nil set `S`) iff all
three probes succeed with equal, non-empty address-sets, `S` being that common
set; any failed probe (or unequal or empty sets) yields Negative.  Moreover
the cache of `matchesWildcard` never mutates an existing entry and, for every
suffix index the walk visits, stores exactly the entry observed for it. -/
theorem wildcardDetection_protocol (R : Resolve) (servers : List String) (num : Nat)
    (g1 g2 g3 : LabelRand) (sub root : String) :
    (∀ S, wildcardDetection R servers num g1 g2 g3 sub root = some (some S) ↔
      ∃ server, NextNameserver servers num = some server ∧
        ∃ s1 s2 s3,
          checkForWildcard R g1 sub root server = some (some s1) ∧
          checkForWildcard R g2 sub root server = some (some s2) ∧
          checkForWildcard R g3 sub root server = some (some s3) ∧
          s1.isEmpty = false ∧ ssEqual s1 s2 = true ∧ ssEqual s2 s3 = true ∧ S = s1) ∧
    (∀ (det : String → Option (List String)) (nm rt ip : String) (cache : WMap)
        (key : List String) (e : DnsWildcard),
      wlookup cache key = some e →
      wlookup (matchesWildcard det nm rt ip cache).2 key = some e) ∧
    (∀ (det : String → Option (List String)) (nm rt ip : String) (cache : WMap) (j : Nat),
      1 ≤ j → j ≤ (splitOnDot nm).length - (splitOnDot rt).length →
      wlookup (matchesWildcard det nm rt ip cache).2 ((splitOnDot nm).drop j) =
        some (effEntry det cache (splitOnDot nm) j)) := by
  refine ⟨?_, ?_, ?_⟩
  · intro S
    unfold wildcardDetection
    cases hs : NextNameserver servers num with
    | none => simp
    | some server =>
      dsimp only
      rw [wildcardDetectionBody_pos_iff]
      constructor
      · intro h
        exact ⟨server, rfl, h⟩
      · rintro ⟨server1, hs1, h⟩
        cases hs1
        exact h
  · intro det nm rt ip cache key e h
    exact mwAux_preserves det ip (splitOnDot nm) _ cache false key e h
  · intro det nm rt ip cache j h1 h2
    exact mwAux_fills det ip (splitOnDot nm) _ (Nat.sub_le _ _) cache false j h1 h2

theorem wildcardDetection_protocol_witness :
    wildcardDetection Rc3 ["1.1.1.1:53"] 0 gC3 gC3 gC3 "wild.com" "wild.com" =
      some (some ["10.0.0.1"]) ∧
    wlookup (matchesWildcard detNone "a.wild.com" "wild.com" "1.2.3.4" cacheC3).2
        ["wild", "com"] =
      some { HasWildcard := true, Answers := some ["9.9.9.9"] } :=
  ⟨((wildcardDetection_protocol Rc3 ["1.1.1.1:53"] 0 gC3 gC3 gC3 "wild.com" "wild.com").1
      ["10.0.0.1"]).mpr
      ⟨"1.1.1.1:53", rfl, ["10.0.0.1"], ["10.0.0.1"], ["10.0.0.1"],
        by decide, by decide, by decide, rfl, rfl, rfl, rfl⟩,
   (wildcardDetection_protocol Rc3 ["1.1.1.1:53"] 0 gC3 gC3 gC3 "wild.com" "wild.com").2.1
      detNone "a.wild.com" "wild.com" "1.2.3.4" cacheC3 ["wild", "com"]
      { HasWildcard := true, Answers := some ["9.9.9.9"] } rfl⟩

theorem string_of_data_nil (s : String) (h : s.data = []) : s = "" := by
  cases s with
  | mk l => subst h; rfl

theorem hasSuffix_ne_empty (s d : String) (hs : hasSuffix s d = true) (hd : d ≠ "") :
    s ≠ "" := by
  intro h
  subst h
  apply hd
  unfold hasSuffix at hs
  rcases (Bool.and_eq_true _ _).mp hs with ⟨h1, _⟩
  rw [decide_eq_true_eq] at h1
  have h0 : ("" : String).data = [] := rfl
  rw [h0] at h1
  exact string_of_data_nil d (List.length_eq_zero.mp (Nat.le_zero.mp h1))

theorem trim252F_id (s : String) (h : starts252F s = false) : trim252F s = s := by
  simp [trim252F, h]

/-- C1: when resolution succeeds, the extracted address is non-empty, and the
wildcard worker reports a match for it, the whole result (all alias answers
included) is discarded exactly when the request's tag is not SEARCH; a
SEARCH-tagged request keeps its full emission list untouched by the match. -/
theorem performDNSRequest_search_exemption (R : Resolve) (server : String)
    (det : String → Option (List String)) (cache : WMap) (req : AmassRequest)
    (answers : List DNSAnswer)
    (hres : (dnsQuery R req.Domain req.Name server).1 = some (Except.ok answers))
    (hip : getARecordData answers ≠ "")
    (hmatch : (matchesWildcard det req.Name req.Domain (getARecordData answers) cache).1 = true) :
    performDNSRequest R server det cache req =
      some ((if req.Tag = AmassTag.SEARCH then
               emitRecords answers { req with Address := getARecordData answers }
                 (getARecordData answers)
             else []),
            (matchesWildcard det req.Name req.Domain (getARecordData answers) cache).2) := by
  unfold performDNSRequest
  rw [hres]
  dsimp only
  rw [if_neg hip]
  by_cases htag : req.Tag = AmassTag.SEARCH
  · rw [if_pos htag]
    rw [if_neg (by simp [htag])]
  · rw [if_neg htag]
    rw [if_pos ⟨htag, hmatch⟩]

theorem performDNSRequest_search_exemption_witness :
    performDNSRequest Rc1 "8.8.8.8:53" detC2 [] reqC1 =
      some ((if reqC1.Tag = AmassTag.SEARCH then
               emitRecords ansC1 { reqC1 with Address := getARecordData ansC1 }
                 (getARecordData ansC1)
             else []),
            (matchesWildcard detC2 reqC1.Name reqC1.Domain (getARecordData ansC1) []).2) :=
  performDNSRequest_search_exemption Rc1 "8.8.8.8:53" detC2 [] reqC1 ansC1
    rfl (by decide) (by decide)

/-- Counterexample to C4 as stated: the emission filter is a raw
`strings.HasSuffix` test, so `badexample.com` under apex `example.com` is
emitted although its name neither equals the domain nor ends in a dot
followed by it. -/
theorem performDNSRequest_emission_cex :
    performDNSRequest Rc4 "8.8.8.8:53" detNone [] reqC4 =
      some ([{ Name := "badexample.com", Domain := "example.com",
               Address := "93.184.216.34", Tag := AmassTag.BRUTE, Source := "brute" }], []) ∧
    dotSuffixOk "badexample.com" "example.com" = false := by
  constructor
  · decide
  · decide

/-- C4 (amended): every request emitted from a request with non-empty domain
carries a non-empty address and the request's domain, and its name is the
`%2F`-trim of a DNS answer name having the domain as a raw string suffix (not
necessarily preceded by a dot); when that answer name does not begin with
`%2F` the emitted name itself is that answer name, has the domain as raw
suffix, and is non-empty. -/
theorem performDNSRequest_emission_shape (R : Resolve) (server : String)
    (det : String → Option (List String)) (cache : WMap) (req : AmassRequest)
    (out : List AmassRequest × WMap) (e : AmassRequest)
    (hdom : req.Domain ≠ "")
    (hout : performDNSRequest R server det cache req = some out)
    (he : e ∈ out.1) :
    e.Address ≠ "" ∧ e.Domain = req.Domain ∧
    ∃ rec : DNSAnswer, hasSuffix rec.Name req.Domain = true ∧ e.Name = trim252F rec.Name ∧
      (starts252F rec.Name = false →
        hasSuffix e.Name req.Domain = true ∧ e.Name ≠ "") := by
  unfold performDNSRequest at hout
  cases hq : (dnsQuery R req.Domain req.Name server).1 with
  | none =>
    rw [hq] at hout
    exact Option.noConfusion hout
  | some exc =>
    rw [hq] at hout
    cases exc with
    | error msg =>
      dsimp only at hout
      cases hout
      simp at he
    | ok answers =>
      dsimp only at hout
      by_cases hips : getARecordData answers = ""
      · rw [if_pos hips] at hout
        cases hout
        simp at he
      · rw [if_neg hips] at hout
        by_cases hgate : req.Tag ≠ AmassTag.SEARCH ∧
            (matchesWildcard det req.Name req.Domain (getARecordData answers) cache).1 = true
        · rw [if_pos hgate] at hout
          cases hout
          simp at he
        · rw [if_neg hgate] at hout
          cases hout
          unfold emitRecords at he
          rw [List.mem_filterMap] at he
          obtain ⟨rec, _, hsome⟩ := he
          by_cases hsf : hasSuffix rec.Name req.Domain = true
          · rw [if_pos hsf] at hsome
            cases hsome
            refine ⟨hips, rfl, rec, hsf, rfl, ?_⟩
            intro h252
            rw [trim252F_id rec.Name h252]
            exact ⟨hsf, hasSuffix_ne_empty rec.Name req.Domain hsf hdom⟩
          · rw [if_neg (by simpa using hsf)] at hsome
            exact Option.noConfusion hsome

theorem performDNSRequest_emission_shape_witness :
    ({ Name := "www.example.com", Domain := "example.com", Address := "93.184.216.34",
       Tag := AmassTag.BRUTE, Source := "brute" } : AmassRequest).Address ≠ "" ∧
    ({ Name := "www.example.com", Domain := "example.com", Address := "93.184.216.34",
       Tag := AmassTag.BRUTE, Source := "brute" } : AmassRequest).Domain = reqC4w.Domain ∧
    ∃ rec : DNSAnswer, hasSuffix rec.Name reqC4w.Domain = true ∧
      ({ Name := "www.example.com", Domain := "example.com", Address := "93.184.216.34",
         Tag := AmassTag.BRUTE, Source := "brute" } : AmassRequest).Name = trim252F rec.Name ∧
      (starts252F rec.Name = false →
        hasSuffix ({ Name := "www.example.com", Domain := "example.com",
                     Address := "93.184.216.34", Tag := AmassTag.BRUTE,
                     Source := "brute" } : AmassRequest).Name reqC4w.Domain = true ∧
        ({ Name := "www.example.com", Domain := "example.com", Address := "93.184.216.34",
           Tag := AmassTag.BRUTE, Source := "brute" } : AmassRequest).Name ≠ "") :=
  performDNSRequest_emission_shape Rc4w "8.8.8.8:53" detNone [] reqC4w outC4w
    { Name := "www.example.com", Domain := "example.com", Address := "93.184.216.34",
      Tag := AmassTag.BRUTE, Source := "brute" }
    (by decide) (by decide) (by decide)

theorem acceptedReqs_length_le (adds : List AmassRequest) :
    ∀ seen, (acceptedReqs adds seen).length ≤ adds.length := by
  induction adds with
  | nil => intro seen; simp [acceptedReqs]
  | cons r rest ih =>
    intro seen
    simp only [acceptedReqs]
    split
    · simpa using ih _
    · exact Nat.le_trans (ih _) (by simp)

theorem dstep_nodup (s : DState) (e : DEvent)
    (h1 : ((s.queue.map (fun q => q.Name)) ++ (s.dispatched.map (fun q => q.Name))).Nodup)
    (h2 : ∀ n, n ∈ (s.queue.map (fun q => q.Name)) ++ (s.dispatched.map (fun q => q.Name)) →
      n ∈ s.filter) :
    (((dstep s e).queue.map (fun q => q.Name)) ++
      ((dstep s e).dispatched.map (fun q => q.Name))).Nodup ∧
    (∀ n, n ∈ ((dstep s e).queue.map (fun q => q.Name)) ++
      ((dstep s e).dispatched.map (fun q => q.Name)) → n ∈ (dstep s e).filter) := by
  cases hstop : s.stopped with
  | true =>
    have hd : dstep s e = s := by simp [dstep, hstop]
    rw [hd]
    exact ⟨h1, h2⟩
  | false =>
    cases e with
    | add r =>
      by_cases hc : trim252F r.Name ≠ "" ∧ trim252F r.Name ∉ s.filter
      · have hd : dstep s (DEvent.add r) =
            { s with queue := s.queue ++ [({ r with Name := trim252F r.Name } : AmassRequest)],
                     filter := trim252F r.Name :: s.filter, active := true } := by
          simp only [dstep, hstop]
          rw [if_neg (by simp), if_pos (by exact hc)]
        rw [hd]
        have hnotin : trim252F r.Name ∉
            (s.queue.map (fun q => q.Name)) ++ (s.dispatched.map (fun q => q.Name)) := by
          intro hmem
          exact hc.2 (h2 _ hmem)
        constructor
        · have heq : ((s.queue ++ [({ r with Name := trim252F r.Name } : AmassRequest)]).map
                (fun q => q.Name)) ++ (s.dispatched.map (fun q => q.Name)) =
              (s.queue.map (fun q => q.Name)) ++
                (trim252F r.Name :: s.dispatched.map (fun q => q.Name)) := by
            simp
          rw [heq, List.nodup_middle]
          exact List.Nodup.cons hnotin h1
        · intro n hn
          simp only [List.map_append, List.map_cons, List.map_nil] at hn
          rcases List.mem_append.mp hn with hn | hn
          · rcases List.mem_append.mp hn with hn | hn
            · exact List.mem_cons_of_mem _ (h2 n (List.mem_append.mpr (Or.inl hn)))
            · simp only [List.mem_singleton] at hn
              exact List.mem_cons.mpr (Or.inl hn)
          · exact List.mem_cons_of_mem _ (h2 n (List.mem_append.mpr (Or.inr hn)))
      · have hd : dstep s (DEvent.add r) = s := by
          simp only [dstep, hstop]
          rw [if_neg (by simp), if_neg (by exact hc)]
        rw [hd]
        exact ⟨h1, h2⟩
    | tick =>
      cases hq : s.queue with
      | nil =>
        have hd : dstep s DEvent.tick = s := by simp [dstep, hstop, hq]
        rw [hd]
        exact ⟨h1, h2⟩
      | cons next rest =>
        rw [hq] at h1 h2
        simp only [List.map_cons, List.cons_append] at h1 h2
        have hd : dstep s DEvent.tick =
            { s with queue := rest,
                     dispatched := if next.Domain ≠ "" then s.dispatched ++ [next]
                                   else s.dispatched } := by
          simp [dstep, hstop, hq]
        rw [hd]
        by_cases hdom : next.Domain ≠ ""
        · rw [if_pos hdom]
          constructor
          · simp only [List.map_append, List.map_cons, List.map_nil]
            have hperm : ((rest.map (fun q => q.Name)) ++
                ((s.dispatched.map (fun q => q.Name)) ++ [next.Name])).Perm
                (next.Name :: (rest.map (fun q => q.Name) ++
                  s.dispatched.map (fun q => q.Name))) := by
              rw [← List.append_assoc]
              exact List.perm_append_singleton _ _
            exact (List.Perm.nodup_iff hperm).mpr h1
          · intro n hn
            simp only [List.map_append, List.map_cons, List.map_nil] at hn
            rcases List.mem_append.mp hn with hn | hn
            · exact h2 n (List.mem_cons_of_mem _ (List.mem_append.mpr (Or.inl hn)))
            · rcases List.mem_append.mp hn with hn | hn
              · exact h2 n (List.mem_cons_of_mem _ (List.mem_append.mpr (Or.inr hn)))
              · simp only [List.mem_singleton] at hn
                subst hn
                exact h2 next.Name (List.mem_cons_self _ _)
        · rw [if_neg hdom]
          constructor
          · exact h1.of_cons
          · intro n hn
            exact h2 n (List.mem_cons_of_mem _ hn)
    | check =>
      by_cases hq : s.queue.isEmpty
      · have hd : dstep s DEvent.check = { s with active := false } := by
          simp [dstep, hstop, hq]
        rw [hd]
        exact ⟨h1, h2⟩
      · have hd : dstep s DEvent.check = s := by simp [dstep, hstop, hq]
        rw [hd]
        exact ⟨h1, h2⟩
    | quit =>
      have hd : dstep s DEvent.quit = { s with stopped := true } := by
        simp [dstep, hstop]
      rw [hd]
      exact ⟨h1, h2⟩

theorem drun_nodup_aux (evs : List DEvent) :
    ∀ (s : DState),
      ((s.queue.map (fun q => q.Name)) ++ (s.dispatched.map (fun q => q.Name))).Nodup →
      (∀ n, n ∈ (s.queue.map (fun q => q.Name)) ++ (s.dispatched.map (fun q => q.Name)) →
        n ∈ s.filter) →
      (((evs.foldl dstep s).queue.map (fun q => q.Name)) ++
        ((evs.foldl dstep s).dispatched.map (fun q => q.Name))).Nodup := by
  induction evs with
  | nil => intro s h1 _; simpa using h1
  | cons e rest ih =>
    intro s h1 h2
    obtain ⟨h1s, h2s⟩ := dstep_nodup s e h1 h2
    simpa using ih (dstep s e) h1s h2s

theorem drun_adds (adds : List AmassRequest) :
    ∀ (s : DState), s.stopped = false →
      ((adds.map DEvent.add).foldl dstep s).queue = s.queue ++ acceptedReqs adds s.filter ∧
      ((adds.map DEvent.add).foldl dstep s).dispatched = s.dispatched ∧
      ((adds.map DEvent.add).foldl dstep s).stopped = false := by
  induction adds with
  | nil =>
    intro s h
    simp [acceptedReqs, h]
  | cons r rest ih =>
    intro s h
    simp only [List.map_cons, List.foldl_cons]
    by_cases hc : trim252F r.Name ≠ "" ∧ trim252F r.Name ∉ s.filter
    · have hd : dstep s (DEvent.add r) =
          { s with queue := s.queue ++ [({ r with Name := trim252F r.Name } : AmassRequest)],
                   filter := trim252F r.Name :: s.filter, active := true } := by
        simp only [dstep, h]
        rw [if_neg (by simp), if_pos (by exact hc)]
      rw [hd]
      obtain ⟨ihq, ihd, ihs⟩ := ih
        { s with queue := s.queue ++ [({ r with Name := trim252F r.Name } : AmassRequest)],
                 filter := trim252F r.Name :: s.filter, active := true } h
      refine ⟨?_, ihd, ihs⟩
      rw [ihq]
      have hacc : acceptedReqs (r :: rest) s.filter =
          ({ r with Name := trim252F r.Name } : AmassRequest) ::
            acceptedReqs rest (trim252F r.Name :: s.filter) := by
        simp only [acceptedReqs]
        rw [if_pos (by exact hc)]
      rw [hacc]
      simp
    · have hd : dstep s (DEvent.add r) = s := by
        simp only [dstep, h]
        rw [if_neg (by simp), if_neg (by exact hc)]
      rw [hd]
      obtain ⟨ihq, ihd, ihs⟩ := ih s h
      refine ⟨?_, ihd, ihs⟩
      rw [ihq]
      have hacc : acceptedReqs (r :: rest) s.filter = acceptedReqs rest s.filter := by
        simp only [acceptedReqs]
        rw [if_neg (by exact hc)]
      rw [hacc]


theorem drun_ticks (n : Nat) :
    ∀ (s : DState), s.stopped = false → s.queue.length ≤ n →
      ((List.replicate n DEvent.tick).foldl dstep s).dispatched =
        s.dispatched ++ s.queue.filter (fun q => decide (q.Domain ≠ "")) := by
  induction n with
  | zero =>
    intro s _ hl
    have hq : s.queue = [] := List.length_eq_zero.mp (Nat.le_zero.mp hl)
    simp [hq]
  | succ n ih =>
    intro s h hl
    simp only [List.replicate_succ, List.foldl_cons]
    cases hq : s.queue with
    | nil =>
      have hd : dstep s DEvent.tick = s := by simp [dstep, h, hq]
      rw [hd, ih s h (by simp [hq]), hq]
    | cons next rest =>
      have hd : dstep s DEvent.tick =
          { s with queue := rest,
                   dispatched := if next.Domain ≠ "" then s.dispatched ++ [next]
                                 else s.dispatched } := by
        simp [dstep, h, hq]
      rw [hd]
      rw [ih { s with queue := rest,
                      dispatched := if next.Domain ≠ "" then s.dispatched ++ [next]
                                    else s.dispatched }
            h (by show rest.length ≤ n; rw [hq] at hl; simp at hl; omega)]
      dsimp only
      by_cases hdom : next.Domain ≠ ""
      · rw [if_pos hdom]
        simp [List.filter_cons, hdom]
      · rw [if_neg hdom]
        simp only [ne_eq, not_not] at hdom
        simp [List.filter_cons, hdom]

/-- C5 (amended): no name is ever handed to the resolution task twice, and —
after the inputs are followed by enough ticks — the dispatched requests are
exactly the first occurrences of each distinct non-empty post-normalisation
name whose FIRST admitted occurrence carried a non-empty domain.  No check
that the domain is a suffix of the name is made, and a later occurrence with
a non-empty domain cannot resurrect a name first admitted with an empty
domain. -/
theorem processRequests_dedup :
    (∀ evs : List DEvent,
      (((drun evs).dispatched).map (fun q => q.Name)).Nodup) ∧
    (∀ adds : List AmassRequest,
      (drun (adds.map DEvent.add ++ List.replicate adds.length DEvent.tick)).dispatched =
        (acceptedReqs adds []).filter (fun q => decide (q.Domain ≠ ""))) := by
  constructor
  · intro evs
    have h := drun_nodup_aux evs
      { queue := [], filter := [], dispatched := [], active := false, stopped := false }
      (by simp) (by simp)
    exact h.of_append_right
  · intro adds
    unfold drun
    rw [List.foldl_append]
    obtain ⟨hq, hd, hs⟩ := drun_adds adds
      { queue := [], filter := [], dispatched := [], active := false, stopped := false } rfl
    rw [drun_ticks adds.length _ hs (by
      rw [hq]
      simpa using acceptedReqs_length_le adds [])]
    rw [hq, hd]
    simp

/-- Counterexample to C5 as stated: a name arriving first with an empty
domain and later with a matching non-empty domain is admitted only once (with
the empty domain) and never dispatched, yet it counts as one distinct name
with a matching non-empty domain suffix, so the two numbers differ (0 vs 1). -/
theorem processRequests_dedup_cex :
    (drun cexEvents).dispatched = [] ∧ claimC5Count cexAdds = 1 := by
  constructor
  · decide
  · decide

set_option maxRecDepth 16384 in
/-- C8 (code bug): contrary to the source's own comment ("The first nor last
char may be a hyphen"), a hyphen drawn at a boundary index is skipped rather
than resampled, so a hyphen drawn next can land first: with the identity
shuffle and draws picking the hyphen twice then the letter `a`, the label
comes out as `-` followed by 29 `a`s.  Moreover, for a 200-character suffix
the label length is `253 - 200 = 53` (not `min(31, 253 - 200) = 31`, and
above the claimed 31-character cap) and the full synthetic name reaches 254
characters, above the claimed `maxNameLen = 253`. -/
theorem unlikelyName_hyphen_bug :
    unlikelyName ldhChars.data selsH "x" = "-aaaaaaaaaaaaaaaaaaaaaaaaaaaaa.x" ∧
    (unlikelyName ldhChars.data selsA subLong).data.length = 254 := by
  constructor
  · decide
  · decide

/-- Counterexample to C9 as stated: with every probe failing, the claim
requires initialisation to fail so that the pipeline never starts; the
source's `init()` has no failure path — it installs the empty pool and the
run only dies later, when the first resolver selection panics (modulo by
zero), modelled by `none`. -/
theorem resolver_pool_init_cex :
    specInitialise Rfail = none ∧
    initUsableServers Rfail = [] ∧
    NextNameserver (initUsableServers Rfail) 7 = none := by
  refine ⟨?_, ?_, ?_⟩ <;> decide

/-- C9 (amended): initialisation probes every address of the built-in list
with one A query for `google.com` and keeps exactly the addresses whose probe
succeeded; no emptiness check is performed at startup, and a resolver
selection returns an address iff the pool is non-empty (on an empty pool the
selection panics instead of the run having failed at startup). -/
theorem resolver_pool_characterisation (R : Resolve) :
    (∀ s, s ∈ testPublicServers R ↔
      s ∈ knownPublicServers ∧ (R "google.com" s "A").isSome = true) ∧
    (∀ (servers : List String) (num : Nat),
      (NextNameserver servers num).isSome = true ↔ servers ≠ []) := by
  constructor
  · intro s
    simp [testPublicServers, List.mem_filter]
  · intro servers num
    constructor
    · intro hs hempty
      subst hempty
      simp [NextNameserver] at hs
    · intro hne
      have hlen : 0 < servers.length := List.length_pos.mpr hne
      have hlt : num % servers.length < servers.length := Nat.mod_lt num hlen
      unfold NextNameserver
      exact Option.isSome_iff_exists.mpr
        ⟨servers[num % servers.length], List.getElem?_eq_getElem hlt⟩
